import Mathlib

/-!
A shallow embedding of the strategy engine in `run.py` (class `StrategyEngine`):
a reactive market-event correlator that maintains per-instrument state
(latest tick, contract, positions, tick history, subscription set, trading
targets) and reacts to tick / contract / position events by issuing
market-data subscriptions, limit orders, log events, strategy status events
and valuation printouts.

Side effects (`gateway.subscribe`, `gateway.send_order`, `event_engine.put`,
`print`) are modelled as an explicit output list; a handler maps a state and
an incoming event to a new state plus its emitted outputs.  Python prices
are modelled as `Int`; the dictionaries `ticks` / `contracts` become
`String → Option _` maps, `tick_history` and the `defaultdict(int)`
`trading_targets` become total functions with the Python defaults, the
`positions` dict (keyed by `vt_positionid`, insertion ordered) becomes an
association list, and the `subscribed` set becomes a list with
insert-if-absent.  The raw dictionary access `self.contracts[vt_symbol]`
in `run_trading` can raise `KeyError`; handlers therefore additionally
return a Boolean flag recording whether that exception was raised.
-/

namespace CodeDemo

/-- Enumeration `Direction` from vnpy (the two values the engine uses). -/
inductive Direction where
  | LONG
  | SHORT
deriving DecidableEq, Repr

/-- Enumeration `OrderType` from vnpy (the engine only sends limit orders). -/
inductive OrderType where
  | LIMIT
deriving DecidableEq, Repr

/-- Enumeration `Offset` from vnpy (open / close). -/
inductive Offset where
  | OPEN
  | CLOSE
deriving DecidableEq, Repr

/-- Record `TickData` from vnpy, restricted to the fields the engine reads. -/
structure TickData where
  vt_symbol : String
  last_price : Int
  datetime : Nat
deriving DecidableEq, Repr

/-- Record `ContractData` from vnpy, restricted to the fields the engine reads. -/
structure ContractData where
  vt_symbol : String
  symbol : String
  exchange : String
  size : Int
deriving DecidableEq, Repr

/-- Record `PositionData` from vnpy, restricted to the fields the engine reads. -/
structure PositionData where
  vt_positionid : String
  vt_symbol : String
  direction : Direction
  volume : Int
deriving DecidableEq, Repr

/-- Record `OrderRequest` from vnpy as built in `run_trading`. -/
structure OrderRequest where
  symbol : String
  exchange : String
  direction : Direction
  type : OrderType
  price : Int
  volume : Int
  offset : Offset
deriving DecidableEq, Repr

/-- Record `SubscribeRequest` from vnpy as built in the two subscribe paths. -/
structure SubscribeRequest where
  symbol : String
  exchange : String
deriving DecidableEq, Repr

/-- One observable side effect of the engine:
a `gateway.subscribe` call, a `gateway.send_order` call, a log event put on
the bus by `write_log`, the `EVENT_STRATEGY` status event put on the bus at
the end of `run_trading`, or a valuation `print` in `calculate_value`. -/
inductive Output where
  | subscribe (req : SubscribeRequest)
  | sendOrder (req : OrderRequest)
  | logEvent (msg : String)
  | strategyEvent (vt_symbol : String) (datetime : Nat) (last_price : Int) (trading_target : Int)
  | printValue (vt_symbol : String) (direction : Direction) (value : Int)
deriving DecidableEq, Repr

/-- The mutable state of `StrategyEngine`:
`ticks`, `contracts` (dicts keyed by vt_symbol), `positions` (dict keyed by
`vt_positionid`, insertion ordered), `subscribed` (set), `tick_history`
(`defaultdict(list)`), `trading_symbols` (set loaded from `setting.json`),
`trading_targets` (`defaultdict(int)`). -/
structure EngineState where
  ticks : String → Option TickData
  contracts : String → Option ContractData
  positions : List (String × PositionData)
  subscribed : List String
  tick_history : String → List TickData
  trading_symbols : List String
  trading_targets : String → Int

/-- Replace the value at key `k` in an insertion-ordered association list
(Python dict assignment: overwrite in place if present, else append). -/
def updAssoc {α : Type} (l : List (String × α)) (k : String) (v : α) : List (String × α) :=
  match l with
  | [] => [(k, v)]
  | (k1, v1) :: rest => if k1 = k then (k, v) :: rest else (k1, v1) :: updAssoc rest k v

/-- Model of Python `set.add`: insert if absent. -/
def setAdd (l : List String) (x : String) : List String :=
  if x ∈ l then l else x :: l

/-- Engine state right after `__init__` + `load_setting`, where `ts` is the
list of vt_symbols read from `setting.json`. -/
def initState (ts : List String) : EngineState :=
  { ticks := fun _ => none
    contracts := fun _ => none
    positions := []
    subscribed := []
    tick_history := fun _ => []
    trading_symbols := ts
    trading_targets := fun _ => 0 }

/-- The `# 多头检查` block of `run_trading`: if the three most recent prices
are strictly increasing and the trading target is falsy (`0`), send a
buy-open limit order at `tick1.last_price + 10`, set the target to `1` and
write a log. -/
def long_check (s : EngineState) (vt_symbol : String) (contract : ContractData)
    (tick1 tick2 tick3 : TickData) : EngineState × List Output :=
  if tick1.last_price > tick2.last_price ∧ tick2.last_price > tick3.last_price then
    if s.trading_targets vt_symbol = 0 then
      ({ s with trading_targets := fun k => if k = vt_symbol then 1 else s.trading_targets k },
        [Output.sendOrder
          { symbol := contract.symbol
            exchange := contract.exchange
            direction := Direction.LONG
            type := OrderType.LIMIT
            price := tick1.last_price + 10
            volume := 1
            offset := Offset.OPEN },
          Output.logEvent (vt_symbol ++ "买入开仓1手 " ++ toString tick1.datetime)])
    else (s, [])
  else (s, [])

/-- The `# 空头检查` block of `run_trading`: if the three most recent prices
are strictly decreasing and the trading target is positive, send a
sell-close limit order at `tick1.last_price - 10`, set the target to `0` and
write a log. -/
def short_check (s : EngineState) (vt_symbol : String) (contract : ContractData)
    (tick1 tick2 tick3 : TickData) : EngineState × List Output :=
  if tick1.last_price < tick2.last_price ∧ tick2.last_price < tick3.last_price then
    if s.trading_targets vt_symbol > 0 then
      ({ s with trading_targets := fun k => if k = vt_symbol then 0 else s.trading_targets k },
        [Output.sendOrder
          { symbol := contract.symbol
            exchange := contract.exchange
            direction := Direction.SHORT
            type := OrderType.LIMIT
            price := tick1.last_price - 10
            volume := 1
            offset := Offset.CLOSE },
          Output.logEvent (vt_symbol ++ "卖出平仓1手 " ++ toString tick1.datetime)])
    else (s, [])
  else (s, [])

/-- Method `run_trading` of `StrategyEngine`.  Returns the new state, the outputs in
emission order, and whether the raw access `self.contracts[vt_symbol]`
raised `KeyError` (it is reached whenever at least 3 ticks of history
exist).  With fewer than 3 ticks the function returns immediately; otherwise
both momentum checks run in sequence and the `EVENT_STRATEGY` status event
is always appended, carrying the current (post-update) trading target. -/
def run_trading (s : EngineState) (vt_symbol : String) : EngineState × List Output × Bool :=
  match (s.tick_history vt_symbol).reverse with
  | tick1 :: tick2 :: tick3 :: _ =>
    match s.contracts vt_symbol with
    | none => (s, [], true)
    | some contract =>
      let r1 := long_check s vt_symbol contract tick1 tick2 tick3
      let r2 := short_check r1.1 vt_symbol contract tick1 tick2 tick3
      (r2.1,
        r1.2 ++ r2.2 ++
          [Output.strategyEvent vt_symbol tick1.datetime tick1.last_price
            (r2.1.trading_targets vt_symbol)],
        false)
  | _ => (s, [], false)

/-- Method `process_tick_event` of `StrategyEngine`: store the tick; if the instrument is
in the trading set, append the tick to its history and run the strategy. -/
def process_tick_event (s : EngineState) (tick : TickData) : EngineState × List Output × Bool :=
  let s1 : EngineState :=
    { s with ticks := fun k => if k = tick.vt_symbol then some tick else s.ticks k }
  if tick.vt_symbol ∈ s1.trading_symbols then
    let s2 : EngineState :=
      { s1 with tick_history := fun k =>
          if k = tick.vt_symbol then s1.tick_history tick.vt_symbol ++ [tick]
          else s1.tick_history k }
    run_trading s2 tick.vt_symbol
  else (s1, [], false)

/-- Method `process_contract_event` of `StrategyEngine`: store the contract; if the
instrument is in the trading set, subscribe (unconditionally, on every
contract event — this path never consults or updates `subscribed`). -/
def process_contract_event (s : EngineState) (contract : ContractData) :
    EngineState × List Output :=
  let s1 : EngineState :=
    { s with contracts := fun k =>
        if k = contract.vt_symbol then some contract else s.contracts k }
  if contract.vt_symbol ∈ s1.trading_symbols then
    (s1, [Output.subscribe { symbol := contract.symbol, exchange := contract.exchange }])
  else (s1, [])

/-- Method `process_position_event` of `StrategyEngine`: store the position under its
`vt_positionid`; skip if the instrument is already in `subscribed`; skip if
no contract is known yet; otherwise subscribe and add the instrument to
`subscribed`. -/
def process_position_event (s : EngineState) (position : PositionData) :
    EngineState × List Output :=
  let s1 : EngineState :=
    { s with positions := updAssoc s.positions position.vt_positionid position }
  if position.vt_symbol ∈ s1.subscribed then (s1, [])
  else
    match s1.contracts position.vt_symbol with
    | none => (s1, [])
    | some contract =>
      ({ s1 with subscribed := setAdd s1.subscribed position.vt_symbol },
        [Output.subscribe { symbol := contract.symbol, exchange := contract.exchange }])

/-- The loop body of `StrategyEngine.calculate_value` applied to the ordered
list of positions: look up tick and contract, skip the position if either is
missing, else print `volume * last_price * size`. -/
def calc_loop (s : EngineState) : List (String × PositionData) → List Output
  | [] => []
  | (_, position) :: rest =>
    match s.ticks position.vt_symbol, s.contracts position.vt_symbol with
    | some tick, some contract =>
      Output.printValue position.vt_symbol position.direction
          (position.volume * tick.last_price * contract.size) :: calc_loop s rest
    | _, _ => calc_loop s rest

/-- Method `calculate_value` of `StrategyEngine`: iterate over all stored positions and
print each computable market value; the state is returned unchanged because
the loop only reads. -/
def calculate_value (s : EngineState) : EngineState × List Output :=
  (s, calc_loop s s.positions)

/-- An inbound event of any of the three kinds the engine registers
state-changing handlers for. -/
inductive InputEvent where
  | tick (t : TickData)
  | contract (c : ContractData)
  | position (p : PositionData)
deriving DecidableEq, Repr

/-- Dispatch one inbound event to its handler; contract and position handlers
never raise. -/
def process_event (s : EngineState) (e : InputEvent) : EngineState × List Output × Bool :=
  match e with
  | .tick t => process_tick_event s t
  | .contract c => ((process_contract_event s c).1, (process_contract_event s c).2, false)
  | .position p => ((process_position_event s p).1, (process_position_event s p).2, false)

/-- Run a sequence of inbound events, recording for each processed event its
emitted outputs; an uncaught `KeyError` stops processing (the exception
propagates out of the handler). -/
def run_events : EngineState → List InputEvent → EngineState × List (InputEvent × List Output) × Bool
  | s, [] => (s, [], false)
  | s, e :: es =>
    let r := process_event s e
    if r.2.2 then (r.1, [(e, r.2.1)], true)
    else
      let rest := run_events r.1 es
      (rest.1, (e, r.2.1) :: rest.2.1, rest.2.2)

/-- An inbound contract-or-position event (the subscription claims quantify
over sequences of these two kinds; neither handler can raise). -/
inductive CPEvent where
  | contract (c : ContractData)
  | position (p : PositionData)
deriving DecidableEq, Repr

/-- The instrument key an event is about. -/
def CPEvent.vt_symbol : CPEvent → String
  | .contract c => c.vt_symbol
  | .position p => p.vt_symbol

/-- Whether the event is a position event. -/
def CPEvent.isPosition : CPEvent → Bool
  | .contract _ => false
  | .position _ => true

/-- Whether the event is a contract event. -/
def CPEvent.isContract : CPEvent → Bool
  | .contract _ => true
  | .position _ => false

/-- Dispatch one contract-or-position event to its handler. -/
def process_cp (s : EngineState) : CPEvent → EngineState × List Output
  | .contract c => process_contract_event s c
  | .position p => process_position_event s p

/-- Run a sequence of contract-or-position events, recording for each event
its emitted outputs. -/
def run_cp : EngineState → List CPEvent → EngineState × List (CPEvent × List Output)
  | s, [] => (s, [])
  | s, e :: es =>
    let r := process_cp s e
    let rest := run_cp r.1 es
    (rest.1, (e, r.2) :: rest.2)

/-- Whether an output is a `gateway.subscribe` call. -/
def isSubscribe : Output → Bool
  | .subscribe _ => true
  | _ => false

/-- Whether an output is a `gateway.send_order` call. -/
def isSendOrder : Output → Bool
  | .sendOrder _ => true
  | _ => false

/-- Whether an output is an `EVENT_STRATEGY` status event. -/
def isStrategyEvent : Output → Bool
  | .strategyEvent _ _ _ _ => true
  | _ => false

/-- Number of `gateway.subscribe` calls in an output list. -/
def countSubs (outs : List Output) : Nat := (outs.filter isSubscribe).length

/-- Number of `gateway.send_order` calls in an output list. -/
def countOrders (outs : List Output) : Nat := (outs.filter isSendOrder).length

/-- Number of subscribe calls emitted, over a trace, while handling events
about instrument `vt` that satisfy `keep`. -/
def subsForWhere (keep : CPEvent → Bool) (vt : String) :
    List (CPEvent × List Output) → Nat
  | [] => 0
  | (e, outs) :: tr =>
    (if keep e = true ∧ e.vt_symbol = vt then countSubs outs else 0) + subsForWhere keep vt tr

/-- Subscribe calls emitted while handling any event about instrument `vt`. -/
def subsFor (vt : String) (tr : List (CPEvent × List Output)) : Nat :=
  subsForWhere (fun _ => true) vt tr

/-- Subscribe calls emitted by the position-driven path for instrument `vt`. -/
def posSubsFor (vt : String) (tr : List (CPEvent × List Output)) : Nat :=
  subsForWhere CPEvent.isPosition vt tr

/-- Subscribe calls emitted by the contract-driven path for instrument `vt`. -/
def contractSubsFor (vt : String) (tr : List (CPEvent × List Output)) : Nat :=
  subsForWhere CPEvent.isContract vt tr

/-- Number of contract events for instrument `vt` in an event sequence. -/
def countContractEvents (vt : String) : List CPEvent → Nat
  | [] => 0
  | e :: es => (if e.isContract = true ∧ e.vt_symbol = vt then 1 else 0) + countContractEvents vt es

/-- Predicate taken from the claim wording: after the new tick is appended,
either fewer than 3 ticks of history exist, or the three most recent prices
are neither strictly increasing with target Flat nor strictly decreasing
with target Long. -/
def no_transition (history : List TickData) (target : Int) : Bool :=
  match history.reverse with
  | t1 :: t2 :: t3 :: _ =>
    !((decide (t1.last_price > t2.last_price) && decide (t2.last_price > t3.last_price)
        && decide (target = 0))
      || (decide (t1.last_price < t2.last_price) && decide (t2.last_price < t3.last_price)
        && decide (target > 0)))
  | _ => true

/-- Valuation output described by the spec wording: for each known position,
in order, report `volume * last_price * size` when both the tick and the
contract for its instrument are present, and report nothing for it
otherwise. -/
def valuation_spec (s : EngineState) : List Output :=
  s.positions.filterMap fun kv =>
    match s.ticks kv.2.vt_symbol, s.contracts kv.2.vt_symbol with
    | some tick, some contract =>
      some (Output.printValue kv.2.vt_symbol kv.2.direction
        (kv.2.volume * tick.last_price * contract.size))
    | _, _ => none

/-- Invariant of claim C10: every instrument key in `subscribed` has a known
contract stored in `contracts`. -/
def subscribed_contract_inv (s : EngineState) : Bool :=
  s.subscribed.all fun x => (s.contracts x).isSome

/-! Concrete sample data used by witnesses and counterexamples. -/

/-- Sample trading-set instrument key. -/
def rbKey : String := "rb.SHFE"

/-- Sample instrument key outside the trading set. -/
def cuKey : String := "cu.SHFE"

/-- Sample contract for the trading-set instrument. -/
def cW : ContractData := { vt_symbol := "rb.SHFE", symbol := "rb", exchange := "SHFE", size := 10 }

/-- Sample position for the trading-set instrument. -/
def pW : PositionData :=
  { vt_positionid := "rb.SHFE.L", vt_symbol := "rb.SHFE", direction := Direction.LONG, volume := 2 }

/-- Sample contract for the non-trading-set instrument. -/
def cX : ContractData := { vt_symbol := "cu.SHFE", symbol := "cu", exchange := "SHFE", size := 5 }

/-- Sample position for the non-trading-set instrument. -/
def pX : PositionData :=
  { vt_positionid := "cu.SHFE.L", vt_symbol := "cu.SHFE", direction := Direction.LONG, volume := 1 }

/-- Sample tick for the trading-set instrument at a given price and time. -/
def tkW (p : Int) (d : Nat) : TickData :=
  { vt_symbol := "rb.SHFE", last_price := p, datetime := d }

/-- Engine state for witnesses: trading set `{rb.SHFE}` with its contract
known, a given tick history for it and a constant trading target. -/
def stateWith (h : List TickData) (tgt : Int) : EngineState :=
  { initState ["rb.SHFE"] with
      contracts := fun k => if k = "rb.SHFE" then some cW else none
      tick_history := fun k => if k = "rb.SHFE" then h else []
      trading_targets := fun _ => tgt }

/-- Engine state used by the C10 witness: `rb.SHFE` is subscribed and its
contract is stored. -/
def subscribedState : EngineState :=
  { initState ["rb.SHFE"] with
      contracts := fun k => if k = "rb.SHFE" then some cW else none
      subscribed := ["rb.SHFE"] }

/-! Shape lemmas for the event handlers. -/

/-- State with the positions dict updated, as done first by
`process_position_event`. -/
def posUpd (s : EngineState) (p : PositionData) : EngineState :=
  { s with positions := updAssoc s.positions p.vt_positionid p }

/-- State with the contracts dict updated, as done first by
`process_contract_event`. -/
def conUpd (s : EngineState) (c : ContractData) : EngineState :=
  { s with contracts := fun k => if k = c.vt_symbol then some c else s.contracts k }

/-- State with the ticks dict updated and the trading tick history appended,
as done by `process_tick_event` for a trading-set instrument. -/
def tickUpd (s : EngineState) (t : TickData) : EngineState :=
  { s with
      ticks := fun k => if k = t.vt_symbol then some t else s.ticks k
      tick_history := fun k =>
        if k = t.vt_symbol then s.tick_history t.vt_symbol ++ [t] else s.tick_history k }

theorem mem_setAdd {l : List String} {x y : String} :
    x ∈ setAdd l y ↔ x = y ∨ x ∈ l := by
  unfold setAdd
  split
  · constructor
    · intro hx
      exact Or.inr hx
    · rintro (rfl | hx)
      · assumption
      · exact hx
  · simp [List.mem_cons]

theorem process_contract_eq (s : EngineState) (c : ContractData) :
    process_contract_event s c =
      (conUpd s c,
        if c.vt_symbol ∈ s.trading_symbols
        then [Output.subscribe { symbol := c.symbol, exchange := c.exchange }]
        else []) := by
  unfold process_contract_event conUpd
  split <;> simp_all

theorem process_position_cases (s : EngineState) (p : PositionData) :
    (p.vt_symbol ∈ s.subscribed ∧ process_position_event s p = (posUpd s p, []))
    ∨ (p.vt_symbol ∉ s.subscribed ∧ s.contracts p.vt_symbol = none
        ∧ process_position_event s p = (posUpd s p, []))
    ∨ (∃ c, p.vt_symbol ∉ s.subscribed ∧ s.contracts p.vt_symbol = some c
        ∧ process_position_event s p =
          ({ posUpd s p with subscribed := setAdd s.subscribed p.vt_symbol },
            [Output.subscribe { symbol := c.symbol, exchange := c.exchange }])) := by
  by_cases hmem : p.vt_symbol ∈ s.subscribed
  · refine Or.inl ⟨hmem, ?_⟩
    unfold process_position_event posUpd
    simp [hmem]
  · cases hc : s.contracts p.vt_symbol with
    | none =>
      refine Or.inr (Or.inl ⟨hmem, rfl, ?_⟩)
      unfold process_position_event posUpd
      simp [hmem, hc]
    | some c =>
      refine Or.inr (Or.inr ⟨c, hmem, rfl, ?_⟩)
      unfold process_position_event posUpd
      simp [hmem, hc]

theorem process_tick_eq (s : EngineState) (t : TickData)
    (hmem : t.vt_symbol ∈ s.trading_symbols) :
    process_tick_event s t = run_trading (tickUpd s t) t.vt_symbol := by
  unfold process_tick_event tickUpd
  simp [hmem]

theorem process_tick_eq_skip (s : EngineState) (t : TickData)
    (hmem : t.vt_symbol ∉ s.trading_symbols) :
    process_tick_event s t =
      ({ s with ticks := fun k => if k = t.vt_symbol then some t else s.ticks k }, [], false) := by
  unfold process_tick_event
  simp [hmem]

theorem run_trading_eq_core (s : EngineState) (vt : String) (t1 t2 t3 : TickData)
    (rest : List TickData) (hrev : (s.tick_history vt).reverse = t1 :: t2 :: t3 :: rest) :
    run_trading s vt =
      (match s.contracts vt with
        | none => (s, [], true)
        | some contract =>
          let r1 := long_check s vt contract t1 t2 t3
          let r2 := short_check r1.1 vt contract t1 t2 t3
          (r2.1,
            r1.2 ++ r2.2 ++
              [Output.strategyEvent vt t1.datetime t1.last_price (r2.1.trading_targets vt)],
            false)) := by
  unfold run_trading
  rw [hrev]

theorem run_trading_insufficient (s : EngineState) (vt : String)
    (h : (s.tick_history vt).length < 3) : run_trading s vt = (s, [], false) := by
  rcases hr : (s.tick_history vt).reverse with _ | ⟨a, _ | ⟨b, _ | ⟨c, l⟩⟩⟩
  · unfold run_trading
    rw [hr]
  · unfold run_trading
    rw [hr]
  · unfold run_trading
    rw [hr]
  · exfalso
    have hlen := congrArg List.length hr
    simp at hlen
    omega

/-! Closed evaluations refuting over-strong claims / exhibiting the KeyError. -/

/-- C1 counterexample: with trading set `{rb.SHFE}`, delivering the contract
for `rb.SHFE` and then a position for it yields TWO subscribe calls for that
instrument in one process run (one from the contract-driven path, one from
the position-driven path, which does not know about the first), refuting
"subscribe is never called twice for the same instrument". -/
theorem C1_counterexample :
    subsFor rbKey (run_cp (initState [rbKey]) [CPEvent.contract cW, CPEvent.position pW]).2 = 2 := by
  decide

/-- C6 counterexample: for an instrument NOT in the trading set (`cu.SHFE`,
trading set is `{rb.SHFE}`), delivering a Position and then its Contract
issues ZERO subscribe calls in total — not exactly one as claimed — because
the contract-driven path only subscribes trading-set instruments and the
position-driven path already ran before the contract was known. -/
theorem C6_counterexample :
    subsFor cuKey (run_cp (initState [rbKey]) [CPEvent.position pX, CPEvent.contract cX]).2 = 0 := by
  decide

/-- C2: evaluation of the code at the failing input.  With trading set
`{rb.SHFE}` and no contract event, the third tick for `rb.SHFE` reaches the
raw dictionary access `self.contracts[vt_symbol]` in `run_trading`, which
raises `KeyError` — processing a tick event is NOT exception-free. -/
theorem C2_tick_keyerror :
    (run_events (initState [rbKey])
      [InputEvent.tick (tkW 10 1), InputEvent.tick (tkW 11 2),
        InputEvent.tick (tkW 12 3)]).2.2 = true := by
  decide

/-! Invariance lemmas along contract / position processing. -/

theorem process_position_trading_symbols (s : EngineState) (p : PositionData) :
    (process_position_event s p).1.trading_symbols = s.trading_symbols := by
  rcases process_position_cases s p with ⟨_, h⟩ | ⟨_, _, h⟩ | ⟨c, _, _, h⟩ <;> rw [h] <;> rfl

theorem process_position_contracts (s : EngineState) (p : PositionData) :
    (process_position_event s p).1.contracts = s.contracts := by
  rcases process_position_cases s p with ⟨_, h⟩ | ⟨_, _, h⟩ | ⟨c, _, _, h⟩ <;> rw [h] <;> rfl

theorem process_contract_trading_symbols (s : EngineState) (c : ContractData) :
    (process_contract_event s c).1.trading_symbols = s.trading_symbols := by
  rw [process_contract_eq]
  rfl

theorem process_contract_subscribed (s : EngineState) (c : ContractData) :
    (process_contract_event s c).1.subscribed = s.subscribed := by
  rw [process_contract_eq]
  rfl

/-- Outcome summary of `process_position_event`: either no subscribe happens
and `subscribed` is untouched, or exactly one subscribe happens for a
not-yet-subscribed instrument, which is then added to `subscribed`. -/
theorem process_position_alt (s : EngineState) (p : PositionData) :
    (countSubs (process_position_event s p).2 = 0
      ∧ (process_position_event s p).1.subscribed = s.subscribed)
    ∨ (countSubs (process_position_event s p).2 = 1
      ∧ p.vt_symbol ∉ s.subscribed
      ∧ (process_position_event s p).1.subscribed = setAdd s.subscribed p.vt_symbol) := by
  rcases process_position_cases s p with ⟨_, h⟩ | ⟨_, _, h⟩ | ⟨c, hmem, _, h⟩
  · left
    rw [h]
    exact ⟨rfl, rfl⟩
  · left
    rw [h]
    exact ⟨rfl, rfl⟩
  · right
    rw [h]
    exact ⟨rfl, hmem, rfl⟩

theorem run_cp_trading_symbols (es : List CPEvent) : ∀ s : EngineState,
    (run_cp s es).1.trading_symbols = s.trading_symbols := by
  induction es with
  | nil => intro s; rfl
  | cons e es ih =>
    intro s
    cases e with
    | contract c =>
      simp only [run_cp]
      rw [ih, process_cp, process_contract_trading_symbols]
    | position p =>
      simp only [run_cp]
      rw [ih, process_cp, process_position_trading_symbols]

/-- Position-driven subscribes still to come are bounded by 1, and by 0 once
the instrument is in `subscribed` — the key deduplication invariant. -/
theorem posSubs_bound (es : List CPEvent) : ∀ (s : EngineState) (X : String),
    posSubsFor X (run_cp s es).2 ≤ (if X ∈ s.subscribed then 0 else 1) := by
  induction es with
  | nil =>
    intro s X
    simp only [run_cp, posSubsFor, subsForWhere]
    exact Nat.zero_le _
  | cons e es ih =>
    intro s X
    simp only [run_cp, posSubsFor, subsForWhere] at *
    cases e with
    | contract c =>
      have h1 := ih (process_contract_event s c).1 X
      rw [process_contract_subscribed] at h1
      simpa [process_cp, CPEvent.isPosition] using h1
    | position p =>
      simp only [process_cp]
      have h1 := ih (process_position_event s p).1 X
      rcases process_position_alt s p with ⟨h0, hsub⟩ | ⟨hone, hmem, hsub⟩
      · rw [hsub] at h1
        rw [h0]
        simpa using h1
      · rw [hsub] at h1
        by_cases hx : p.vt_symbol = X
        · have hxmem : X ∈ setAdd s.subscribed p.vt_symbol :=
            mem_setAdd.mpr (Or.inl hx.symm)
          rw [if_pos hxmem] at h1
          have h2 : posSubsFor X (run_cp (process_position_event s p).1 es).2 = 0 :=
            Nat.le_zero.mp h1
          simp only [posSubsFor] at h2
          rw [h2, if_neg (fun hz => hmem (hx ▸ hz))]
          have hcond : (CPEvent.position p).isPosition = true
              ∧ (CPEvent.position p).vt_symbol = X := ⟨rfl, hx⟩
          rw [if_pos hcond, hone]
        · have hiff : X ∈ setAdd s.subscribed p.vt_symbol ↔ X ∈ s.subscribed := by
            rw [mem_setAdd]
            constructor
            · rintro (rfl | hz)
              · exact absurd rfl hx
              · exact hz
            · exact Or.inr
          have hcond : ¬((CPEvent.position p).isPosition = true
              ∧ (CPEvent.position p).vt_symbol = X) := by
            rintro ⟨_, hvx⟩
            exact hx hvx
          rw [if_neg hcond]
          by_cases hz : X ∈ s.subscribed
          · rw [if_pos hz]
            rw [if_pos (hiff.mpr hz)] at h1
            simpa using h1
          · rw [if_neg hz]
            rw [if_neg (fun hy => hz (hiff.mp hy))] at h1
            simpa using h1

/-- Contract-driven subscribes in a trace: one per contract event for a
trading-set instrument, none otherwise. -/
theorem contractSubs_eq (es : List CPEvent) : ∀ (s : EngineState) (X : String),
    contractSubsFor X (run_cp s es).2 =
      (if X ∈ s.trading_symbols then countContractEvents X es else 0) := by
  induction es with
  | nil =>
    intro s X
    simp only [run_cp, contractSubsFor, subsForWhere, countContractEvents]
    split <;> rfl
  | cons e es ih =>
    intro s X
    simp only [run_cp, contractSubsFor, subsForWhere, countContractEvents] at *
    cases e with
    | position p =>
      have h1 := ih (process_position_event s p).1 X
      rw [process_position_trading_symbols] at h1
      have hnp : ¬(CPEvent.isContract (CPEvent.position p) = true
          ∧ (CPEvent.position p).vt_symbol = X) := by
        rintro ⟨hb, _⟩
        simp [CPEvent.isContract] at hb
      simp only [process_cp]
      rw [if_neg hnp, h1]
      have hnp2 : ¬(CPEvent.isContract (CPEvent.position p) = true
          ∧ (CPEvent.position p).vt_symbol = X) := hnp
      rw [if_neg hnp2]
      split <;> omega
    | contract c =>
      have h1 := ih (process_contract_event s c).1 X
      rw [process_contract_trading_symbols] at h1
      simp only [process_cp]
      rw [h1, process_contract_eq]
      by_cases hcx : c.vt_symbol = X
      · have hp : CPEvent.isContract (CPEvent.contract c) = true
            ∧ (CPEvent.contract c).vt_symbol = X := ⟨rfl, hcx⟩
        rw [if_pos hp, if_pos hp]
        subst hcx
        by_cases hX : c.vt_symbol ∈ s.trading_symbols
        · rw [if_pos hX, if_pos hX, if_pos hX]
          simp [countSubs, isSubscribe]
        · rw [if_neg hX, if_neg hX, if_neg hX]
          simp [countSubs, isSubscribe]
      · have hp : ¬(CPEvent.isContract (CPEvent.contract c) = true
            ∧ (CPEvent.contract c).vt_symbol = X) := by
          rintro ⟨_, hvx⟩
          exact hcx hvx
        rw [if_neg hp, if_neg hp]
        split <;> omega

theorem run_cp_append (es1 : List CPEvent) : ∀ (s : EngineState) (es2 : List CPEvent),
    run_cp s (es1 ++ es2) =
      ((run_cp (run_cp s es1).1 es2).1,
        (run_cp s es1).2 ++ (run_cp (run_cp s es1).1 es2).2) := by
  induction es1 with
  | nil =>
    intro s es2
    simp [run_cp]
  | cons e es ih =>
    intro s es2
    simp only [List.cons_append, run_cp]
    simp [ih]

theorem subsForWhere_append (keep : CPEvent → Bool) (vt : String)
    (t1 t2 : List (CPEvent × List Output)) :
    subsForWhere keep vt (t1 ++ t2) = subsForWhere keep vt t1 + subsForWhere keep vt t2 := by
  induction t1 with
  | nil => simp [subsForWhere]
  | cons h t ih =>
    rcases h with ⟨e, outs⟩
    simp only [List.cons_append, subsForWhere]
    simp only [List.append_eq] at *
    rw [ih]
    omega

/-- While no contract event for instrument `X` has been processed and no
contract for `X` is stored, no subscribe call at all is issued for `X`, and
still no contract for `X` is stored afterwards. -/
theorem subsFor_zero_of_no_contract (es : List CPEvent) : ∀ (s : EngineState) (X : String),
    s.contracts X = none →
    (∀ e ∈ es, e.isContract = true → e.vt_symbol ≠ X) →
    subsFor X (run_cp s es).2 = 0 ∧ (run_cp s es).1.contracts X = none := by
  induction es with
  | nil =>
    intro s X hc _
    exact ⟨rfl, hc⟩
  | cons e es ih =>
    intro s X hc hall
    have hall2 : ∀ e2 ∈ es, e2.isContract = true → e2.vt_symbol ≠ X := fun e2 he2 =>
      hall e2 (List.mem_cons_of_mem _ he2)
    simp only [run_cp, subsFor, subsForWhere] at *
    cases e with
    | contract c =>
      have hcx : c.vt_symbol ≠ X := hall _ (List.mem_cons_self _ _) rfl
      have hc2 : (process_cp s (CPEvent.contract c)).1.contracts X = none := by
        simp only [process_cp]
        rw [process_contract_eq]
        show (if X = c.vt_symbol then some c else s.contracts X) = none
        rw [if_neg (fun h => hcx h.symm)]
        exact hc
      have h1 := ih (process_cp s (CPEvent.contract c)).1 X hc2 hall2
      refine ⟨?_, h1.2⟩
      rw [h1.1]
      simp [CPEvent.vt_symbol, hcx]
    | position p =>
      have hc2 : (process_cp s (CPEvent.position p)).1.contracts X = none := by
        simp only [process_cp]
        rw [process_position_contracts]
        exact hc
      have h1 := ih (process_cp s (CPEvent.position p)).1 X hc2 hall2
      refine ⟨?_, h1.2⟩
      rw [h1.1]
      simp only [process_cp]
      by_cases hx : p.vt_symbol = X
      · rcases process_position_cases s p with ⟨_, h⟩ | ⟨_, _, h⟩ | ⟨c, _, hcon, h⟩
        · rw [h]
          simp [countSubs, isSubscribe]
        · rw [h]
          simp [countSubs, isSubscribe]
        · rw [hx, hc] at hcon
          exact absurd hcon (by simp)
      · simp [CPEvent.vt_symbol, hx]

/-! Claim theorems for the subscription behaviour. -/

/-- C1 (amended): per instrument, the position-driven path issues at most one
subscribe call in any run over contract and position events, while the
contract-driven path issues exactly one subscribe call per contract event
received for a trading-set instrument (and none for other instruments); it
is not deduplicated, so the same instrument can be subscribed more than once
in one process run. -/
theorem C1_subscribe_paths (ts : List String) (es : List CPEvent) (X : String) :
    posSubsFor X (run_cp (initState ts) es).2 ≤ 1
    ∧ contractSubsFor X (run_cp (initState ts) es).2 =
        (if X ∈ ts then countContractEvents X es else 0) := by
  constructor
  · have h := posSubs_bound es (initState ts) X
    have hsub : (initState ts).subscribed = [] := rfl
    rw [hsub] at h
    simpa using h
  · have h := contractSubs_eq es (initState ts) X
    have hts : (initState ts).trading_symbols = ts := rfl
    rw [hts] at h
    exact h

/-- C7 (confirmed): for every instrument, at most one subscribe request is
ever issued by the position-driven path over any sequence of contract and
position events — in particular no matter how many times positions with the
same id and instrument key are re-delivered — because membership in
`subscribed` is checked before every position-driven subscribe. -/
theorem C7_position_path_at_most_once (ts : List String) (es : List CPEvent) (X : String) :
    posSubsFor X (run_cp (initState ts) es).2 ≤ 1 := by
  have h := posSubs_bound es (initState ts) X
  have hsub : (initState ts).subscribed = [] := rfl
  rw [hsub] at h
  simpa using h

/-- C6 (amended): for a TRADING-SET instrument whose events are position
events (or any events other than a contract event for it) followed by its
first contract event, no subscribe call for it is issued before the contract
arrives, and exactly one has been issued in total once the contract event is
processed (by the contract-driven path).  For instruments outside the
trading set the subscribe is instead deferred until the next position event
after the contract. -/
theorem C6_position_before_contract (ts : List String) (X : String) (pre : List CPEvent)
    (c : ContractData) (hX : X ∈ ts) (hc : c.vt_symbol = X)
    (hpre : ∀ e ∈ pre, e.isContract = true → e.vt_symbol ≠ X) :
    subsFor X (run_cp (initState ts) pre).2 = 0
    ∧ subsFor X (run_cp (initState ts) (pre ++ [CPEvent.contract c])).2 = 1 := by
  have h0 := subsFor_zero_of_no_contract pre (initState ts) X rfl hpre
  refine ⟨h0.1, ?_⟩
  have hts : (run_cp (initState ts) pre).1.trading_symbols = ts :=
    run_cp_trading_symbols pre (initState ts)
  rw [run_cp_append]
  simp only [subsFor] at h0 ⊢
  rw [subsForWhere_append, h0.1]
  simp only [run_cp, process_cp, subsForWhere]
  rw [process_contract_eq]
  simp [CPEvent.vt_symbol, hc, hts, hX, countSubs, isSubscribe]

/-! Behaviour lemmas for the two momentum checks and `run_trading`. -/

theorem long_check_fires (s : EngineState) (vt : String) (c : ContractData)
    (t1 t2 t3 : TickData) (h12 : t1.last_price > t2.last_price)
    (h23 : t2.last_price > t3.last_price) (htgt : s.trading_targets vt = 0) :
    long_check s vt c t1 t2 t3 =
      ({ s with trading_targets := fun k => if k = vt then 1 else s.trading_targets k },
        [Output.sendOrder
          { symbol := c.symbol, exchange := c.exchange, direction := Direction.LONG,
            type := OrderType.LIMIT, price := t1.last_price + 10, volume := 1,
            offset := Offset.OPEN },
          Output.logEvent (vt ++ "买入开仓1手 " ++ toString t1.datetime)]) := by
  unfold long_check
  rw [if_pos ⟨h12, h23⟩, if_pos htgt]

theorem short_check_fires (s : EngineState) (vt : String) (c : ContractData)
    (t1 t2 t3 : TickData) (h12 : t1.last_price < t2.last_price)
    (h23 : t2.last_price < t3.last_price) (htgt : s.trading_targets vt > 0) :
    short_check s vt c t1 t2 t3 =
      ({ s with trading_targets := fun k => if k = vt then 0 else s.trading_targets k },
        [Output.sendOrder
          { symbol := c.symbol, exchange := c.exchange, direction := Direction.SHORT,
            type := OrderType.LIMIT, price := t1.last_price - 10, volume := 1,
            offset := Offset.CLOSE },
          Output.logEvent (vt ++ "卖出平仓1手 " ++ toString t1.datetime)]) := by
  unfold short_check
  rw [if_pos ⟨h12, h23⟩, if_pos htgt]

theorem long_check_noop (s : EngineState) (vt : String) (c : ContractData)
    (t1 t2 t3 : TickData)
    (h : ¬(t1.last_price > t2.last_price ∧ t2.last_price > t3.last_price
      ∧ s.trading_targets vt = 0)) :
    long_check s vt c t1 t2 t3 = (s, []) := by
  unfold long_check
  by_cases hp : t1.last_price > t2.last_price ∧ t2.last_price > t3.last_price
  · rw [if_pos hp, if_neg (fun ht => h ⟨hp.1, hp.2, ht⟩)]
  · rw [if_neg hp]

theorem short_check_noop (s : EngineState) (vt : String) (c : ContractData)
    (t1 t2 t3 : TickData)
    (h : ¬(t1.last_price < t2.last_price ∧ t2.last_price < t3.last_price
      ∧ s.trading_targets vt > 0)) :
    short_check s vt c t1 t2 t3 = (s, []) := by
  unfold short_check
  by_cases hp : t1.last_price < t2.last_price ∧ t2.last_price < t3.last_price
  · rw [if_pos hp, if_neg (fun ht => h ⟨hp.1, hp.2, ht⟩)]
  · rw [if_neg hp]

theorem long_check_no_strategy (s : EngineState) (vt : String) (c : ContractData)
    (t1 t2 t3 : TickData) :
    (long_check s vt c t1 t2 t3).2.filter isStrategyEvent = [] := by
  unfold long_check
  split
  · split
    · rfl
    · rfl
  · rfl

theorem short_check_no_strategy (s : EngineState) (vt : String) (c : ContractData)
    (t1 t2 t3 : TickData) :
    (short_check s vt c t1 t2 t3).2.filter isStrategyEvent = [] := by
  unfold short_check
  split
  · split
    · rfl
    · rfl
  · rfl

theorem run_trading_keyerror (s : EngineState) (vt : String) (t1 t2 t3 : TickData)
    (rest : List TickData) (hrev : (s.tick_history vt).reverse = t1 :: t2 :: t3 :: rest)
    (hc : s.contracts vt = none) :
    run_trading s vt = (s, [], true) := by
  unfold run_trading
  rw [hrev, hc]

theorem run_trading_core_some (s : EngineState) (vt : String) (t1 t2 t3 : TickData)
    (rest : List TickData) (c : ContractData)
    (hrev : (s.tick_history vt).reverse = t1 :: t2 :: t3 :: rest)
    (hc : s.contracts vt = some c) :
    run_trading s vt =
      ((short_check (long_check s vt c t1 t2 t3).1 vt c t1 t2 t3).1,
        (long_check s vt c t1 t2 t3).2 ++
          (short_check (long_check s vt c t1 t2 t3).1 vt c t1 t2 t3).2 ++
          [Output.strategyEvent vt t1.datetime t1.last_price
            ((short_check (long_check s vt c t1 t2 t3).1 vt c t1 t2 t3).1.trading_targets vt)],
        false) := by
  unfold run_trading
  rw [hrev, hc]

/-- C3 (confirmed): when a tick for a trading-set instrument arrives on top
of at least two prior ticks, the three most recent prices are strictly
increasing (newest first: `t > t2 > t3`), the contract is known and the
target state is Flat (`0`), the engine emits exactly one buy-open limit
order at `t.last_price + 10` with volume 1, a log event, and the status
event, in that order; the target state becomes `1` and no exception is
raised. -/
theorem C3_flat_to_long (s : EngineState) (t t2 t3 : TickData) (rest : List TickData)
    (c : ContractData)
    (hmem : t.vt_symbol ∈ s.trading_symbols)
    (hrev : (s.tick_history t.vt_symbol).reverse = t2 :: t3 :: rest)
    (hc : s.contracts t.vt_symbol = some c)
    (h12 : t.last_price > t2.last_price) (h23 : t2.last_price > t3.last_price)
    (htgt : s.trading_targets t.vt_symbol = 0) :
    (process_tick_event s t).2.1 =
      [Output.sendOrder
        { symbol := c.symbol, exchange := c.exchange, direction := Direction.LONG,
          type := OrderType.LIMIT, price := t.last_price + 10, volume := 1,
          offset := Offset.OPEN },
        Output.logEvent (t.vt_symbol ++ "买入开仓1手 " ++ toString t.datetime),
        Output.strategyEvent t.vt_symbol t.datetime t.last_price 1]
    ∧ (process_tick_event s t).1.trading_targets t.vt_symbol = 1
    ∧ (process_tick_event s t).2.2 = false := by
  rw [process_tick_eq s t hmem]
  have hrev2 : ((tickUpd s t).tick_history t.vt_symbol).reverse = t :: t2 :: t3 :: rest := by
    show ((if t.vt_symbol = t.vt_symbol then s.tick_history t.vt_symbol ++ [t]
      else s.tick_history t.vt_symbol) : List TickData).reverse = _
    rw [if_pos rfl]
    simp [hrev]
  have hc2 : (tickUpd s t).contracts t.vt_symbol = some c := hc
  rw [run_trading_core_some (tickUpd s t) t.vt_symbol t t2 t3 rest c hrev2 hc2]
  have htgt2 : (tickUpd s t).trading_targets t.vt_symbol = 0 := htgt
  rw [long_check_fires (tickUpd s t) t.vt_symbol c t t2 t3 h12 h23 htgt2]
  have hnd : ¬(t.last_price < t2.last_price ∧ t2.last_price < t3.last_price
      ∧ ({ tickUpd s t with trading_targets := fun k =>
            if k = t.vt_symbol then 1 else (tickUpd s t).trading_targets k } :
          EngineState).trading_targets t.vt_symbol > 0) := by
    rintro ⟨hlt, _, _⟩
    omega
  rw [short_check_noop _ t.vt_symbol c t t2 t3 hnd]
  refine ⟨?_, ?_, rfl⟩
  · show [_, _, Output.strategyEvent t.vt_symbol t.datetime t.last_price
      (if t.vt_symbol = t.vt_symbol then 1 else (tickUpd s t).trading_targets t.vt_symbol)] = _
    rw [if_pos rfl]
  · show (if t.vt_symbol = t.vt_symbol then 1 else (tickUpd s t).trading_targets t.vt_symbol) = 1
    rw [if_pos rfl]

/-- C4 (confirmed): when a tick for a trading-set instrument arrives on top
of at least two prior ticks, the three most recent prices are strictly
decreasing (newest first: `t < t2 < t3`), the contract is known and the
target state is Long (`1`), the engine emits exactly one sell-close limit
order at `t.last_price - 10` with volume 1, a log event, and the status
event, in that order; the target state becomes `0` and no exception is
raised. -/
theorem C4_long_to_flat (s : EngineState) (t t2 t3 : TickData) (rest : List TickData)
    (c : ContractData)
    (hmem : t.vt_symbol ∈ s.trading_symbols)
    (hrev : (s.tick_history t.vt_symbol).reverse = t2 :: t3 :: rest)
    (hc : s.contracts t.vt_symbol = some c)
    (h12 : t.last_price < t2.last_price) (h23 : t2.last_price < t3.last_price)
    (htgt : s.trading_targets t.vt_symbol = 1) :
    (process_tick_event s t).2.1 =
      [Output.sendOrder
        { symbol := c.symbol, exchange := c.exchange, direction := Direction.SHORT,
          type := OrderType.LIMIT, price := t.last_price - 10, volume := 1,
          offset := Offset.CLOSE },
        Output.logEvent (t.vt_symbol ++ "卖出平仓1手 " ++ toString t.datetime),
        Output.strategyEvent t.vt_symbol t.datetime t.last_price 0]
    ∧ (process_tick_event s t).1.trading_targets t.vt_symbol = 0
    ∧ (process_tick_event s t).2.2 = false := by
  rw [process_tick_eq s t hmem]
  have hrev2 : ((tickUpd s t).tick_history t.vt_symbol).reverse = t :: t2 :: t3 :: rest := by
    show ((if t.vt_symbol = t.vt_symbol then s.tick_history t.vt_symbol ++ [t]
      else s.tick_history t.vt_symbol) : List TickData).reverse = _
    rw [if_pos rfl]
    simp [hrev]
  have hc2 : (tickUpd s t).contracts t.vt_symbol = some c := hc
  rw [run_trading_core_some (tickUpd s t) t.vt_symbol t t2 t3 rest c hrev2 hc2]
  have hng : ¬(t.last_price > t2.last_price ∧ t2.last_price > t3.last_price
      ∧ (tickUpd s t).trading_targets t.vt_symbol = 0) := by
    rintro ⟨hgt, _, _⟩
    omega
  rw [long_check_noop (tickUpd s t) t.vt_symbol c t t2 t3 hng]
  have htgt2 : (tickUpd s t).trading_targets t.vt_symbol > 0 := by
    show s.trading_targets t.vt_symbol > 0
    omega
  rw [short_check_fires (tickUpd s t) t.vt_symbol c t t2 t3 h12 h23 htgt2]
  refine ⟨?_, ?_, rfl⟩
  · show [_, _, Output.strategyEvent t.vt_symbol t.datetime t.last_price
      (if t.vt_symbol = t.vt_symbol then 0 else (tickUpd s t).trading_targets t.vt_symbol)] = _
    rw [if_pos rfl]
  · show (if t.vt_symbol = t.vt_symbol then 0 else (tickUpd s t).trading_targets t.vt_symbol) = 0
    rw [if_pos rfl]

theorem no_transition_iff (hist : List TickData) (target : Int) (t1 t2 t3 : TickData)
    (l : List TickData) (hrev : hist.reverse = t1 :: t2 :: t3 :: l) :
    no_transition hist target = true ↔
      (¬(t1.last_price > t2.last_price ∧ t2.last_price > t3.last_price ∧ target = 0)
        ∧ ¬(t1.last_price < t2.last_price ∧ t2.last_price < t3.last_price ∧ target > 0)) := by
  unfold no_transition
  rw [hrev]
  simp only [Bool.not_eq_true', Bool.or_eq_false_iff, Bool.and_eq_false_iff,
    decide_eq_false_iff_not, decide_eq_true_eq]
  constructor
  · rintro ⟨ha, hb⟩
    constructor
    · rintro ⟨h1, h2, h3⟩
      rcases ha with (h | h) | h
      · exact h h1
      · exact h h2
      · exact h h3
    · rintro ⟨h1, h2, h3⟩
      rcases hb with (h | h) | h
      · exact h h1
      · exact h h2
      · exact h h3
  · rintro ⟨ha, hb⟩
    constructor
    · by_cases h1 : t1.last_price > t2.last_price
      · by_cases h2 : t2.last_price > t3.last_price
        · exact Or.inr fun h3 => ha ⟨h1, h2, h3⟩
        · exact Or.inl (Or.inr h2)
      · exact Or.inl (Or.inl h1)
    · by_cases h1 : t1.last_price < t2.last_price
      · by_cases h2 : t2.last_price < t3.last_price
        · exact Or.inr fun h3 => hb ⟨h1, h2, h3⟩
        · exact Or.inl (Or.inr h2)
      · exact Or.inl (Or.inl h1)

/-- C5 (confirmed): on a new tick of a trading-set instrument, if fewer than
3 ticks of history exist after the tick is appended, or the three most
recent prices are neither strictly increasing with target Flat nor strictly
decreasing with target Long, then no order is sent and every instrument
target state is unchanged — the target-state flag is the sole gate, so in
particular a plateau or a re-delivered rising sequence while already Long
emits no order. -/
theorem C5_no_transition (s : EngineState) (t : TickData)
    (hmem : t.vt_symbol ∈ s.trading_symbols)
    (hno : no_transition (s.tick_history t.vt_symbol ++ [t])
      (s.trading_targets t.vt_symbol) = true) :
    countOrders (process_tick_event s t).2.1 = 0
    ∧ ∀ k, (process_tick_event s t).1.trading_targets k = s.trading_targets k := by
  rw [process_tick_eq s t hmem]
  have hh : (tickUpd s t).tick_history t.vt_symbol = s.tick_history t.vt_symbol ++ [t] := by
    show (if t.vt_symbol = t.vt_symbol then s.tick_history t.vt_symbol ++ [t]
      else s.tick_history t.vt_symbol) = _
    rw [if_pos rfl]
  rcases hr : (s.tick_history t.vt_symbol).reverse with _ | ⟨a, _ | ⟨b, l⟩⟩
  · have hlen : ((tickUpd s t).tick_history t.vt_symbol).length < 3 := by
      have h0 : (s.tick_history t.vt_symbol).length = 0 := by
        have := congrArg List.length hr
        simpa using this
      rw [hh]
      simp [h0]
    rw [run_trading_insufficient _ _ hlen]
    exact ⟨rfl, fun k => rfl⟩
  · have hlen : ((tickUpd s t).tick_history t.vt_symbol).length < 3 := by
      have h0 : (s.tick_history t.vt_symbol).length = 1 := by
        have := congrArg List.length hr
        simpa using this
      rw [hh]
      simp [h0]
    rw [run_trading_insufficient _ _ hlen]
    exact ⟨rfl, fun k => rfl⟩
  · have hrev2 : ((tickUpd s t).tick_history t.vt_symbol).reverse = t :: a :: b :: l := by
      rw [hh]
      simp [hr]
    have hrevfull : (s.tick_history t.vt_symbol ++ [t]).reverse = t :: a :: b :: l := by
      simp [hr]
    have hno2 := (no_transition_iff (s.tick_history t.vt_symbol ++ [t])
      (s.trading_targets t.vt_symbol) t a b l hrevfull).mp hno
    cases hcon : (tickUpd s t).contracts t.vt_symbol with
    | none =>
      rw [run_trading_keyerror _ _ t a b l hrev2 hcon]
      exact ⟨rfl, fun k => rfl⟩
    | some c =>
      rw [run_trading_core_some _ _ t a b l c hrev2 hcon]
      have hng : ¬(t.last_price > a.last_price ∧ a.last_price > b.last_price
          ∧ (tickUpd s t).trading_targets t.vt_symbol = 0) := hno2.1
      rw [long_check_noop _ _ c t a b hng]
      have hns : ¬(t.last_price < a.last_price ∧ a.last_price < b.last_price
          ∧ (tickUpd s t).trading_targets t.vt_symbol > 0) := hno2.2
      rw [short_check_noop _ _ c t a b hns]
      exact ⟨rfl, fun k => rfl⟩

/-- C8 (confirmed): whenever the transition rules are actually evaluated on a
new tick of a trading-set instrument — at least 3 ticks of history after the
append and the contract present — exactly one status event is emitted, as
the last output, carrying the instrument key, the newest tick's timestamp
and price, and the current (post-transition) target state; it is a
`strategyEvent`, a different constructor from any order. -/
theorem C8_status_event (s : EngineState) (t : TickData) (c : ContractData)
    (hmem : t.vt_symbol ∈ s.trading_symbols)
    (hlen : 2 ≤ (s.tick_history t.vt_symbol).length)
    (hc : s.contracts t.vt_symbol = some c) :
    ((process_tick_event s t).2.1).filter isStrategyEvent =
      [Output.strategyEvent t.vt_symbol t.datetime t.last_price
        ((process_tick_event s t).1.trading_targets t.vt_symbol)]
    ∧ (process_tick_event s t).2.2 = false := by
  rcases hr : (s.tick_history t.vt_symbol).reverse with _ | ⟨a, _ | ⟨b, l⟩⟩
  · exfalso
    have h0 : (s.tick_history t.vt_symbol).length = 0 := by
      have := congrArg List.length hr
      simpa using this
    omega
  · exfalso
    have h0 : (s.tick_history t.vt_symbol).length = 1 := by
      have := congrArg List.length hr
      simpa using this
    omega
  · rw [process_tick_eq s t hmem]
    have hh : (tickUpd s t).tick_history t.vt_symbol = s.tick_history t.vt_symbol ++ [t] := by
      show (if t.vt_symbol = t.vt_symbol then s.tick_history t.vt_symbol ++ [t]
        else s.tick_history t.vt_symbol) = _
      rw [if_pos rfl]
    have hrev2 : ((tickUpd s t).tick_history t.vt_symbol).reverse = t :: a :: b :: l := by
      rw [hh]
      simp [hr]
    have hc2 : (tickUpd s t).contracts t.vt_symbol = some c := hc
    rw [run_trading_core_some (tickUpd s t) t.vt_symbol t a b l c hrev2 hc2]
    refine ⟨?_, rfl⟩
    rw [List.filter_append, List.filter_append, long_check_no_strategy, short_check_no_strategy]
    rfl

/-- C9 (confirmed): the valuation pass returns the state unchanged (it only
reads), and reports exactly the positions whose tick and contract are both
present, each valued `volume * last_price * size`, silently skipping every
position with either missing. -/
theorem C9_valuation (s : EngineState) :
    (calculate_value s).1 = s ∧ (calculate_value s).2 = valuation_spec s := by
  refine ⟨rfl, ?_⟩
  show calc_loop s s.positions = valuation_spec s
  unfold valuation_spec
  generalize s.positions = l
  induction l with
  | nil => rfl
  | cons kv rest ih =>
    rcases kv with ⟨k, p⟩
    rw [List.filterMap_cons]
    cases h1 : s.ticks p.vt_symbol <;> cases h2 : s.contracts p.vt_symbol <;>
      simp [calc_loop, h1, h2, ih]

/-! Field-preservation lemmas for the tick path, used for the C10 invariant. -/

theorem long_check_fields (s : EngineState) (vt : String) (c : ContractData)
    (t1 t2 t3 : TickData) :
    (long_check s vt c t1 t2 t3).1.subscribed = s.subscribed
    ∧ (long_check s vt c t1 t2 t3).1.contracts = s.contracts := by
  unfold long_check
  split
  · split
    · exact ⟨rfl, rfl⟩
    · exact ⟨rfl, rfl⟩
  · exact ⟨rfl, rfl⟩

theorem short_check_fields (s : EngineState) (vt : String) (c : ContractData)
    (t1 t2 t3 : TickData) :
    (short_check s vt c t1 t2 t3).1.subscribed = s.subscribed
    ∧ (short_check s vt c t1 t2 t3).1.contracts = s.contracts := by
  unfold short_check
  split
  · split
    · exact ⟨rfl, rfl⟩
    · exact ⟨rfl, rfl⟩
  · exact ⟨rfl, rfl⟩

theorem process_tick_fields (s : EngineState) (t : TickData) :
    (process_tick_event s t).1.subscribed = s.subscribed
    ∧ (process_tick_event s t).1.contracts = s.contracts := by
  by_cases hmem : t.vt_symbol ∈ s.trading_symbols
  · rw [process_tick_eq s t hmem]
    rcases hr : ((tickUpd s t).tick_history t.vt_symbol).reverse with _ | ⟨a, _ | ⟨b, _ | ⟨d, l⟩⟩⟩
    · unfold run_trading
      rw [hr]
      exact ⟨rfl, rfl⟩
    · unfold run_trading
      rw [hr]
      exact ⟨rfl, rfl⟩
    · unfold run_trading
      rw [hr]
      exact ⟨rfl, rfl⟩
    · cases hcon : (tickUpd s t).contracts t.vt_symbol with
      | none =>
        rw [run_trading_keyerror _ _ a b d l hr hcon]
        exact ⟨rfl, rfl⟩
      | some c =>
        rw [run_trading_core_some _ _ a b d l c hr hcon]
        have hl := long_check_fields (tickUpd s t) t.vt_symbol c a b d
        have hs := short_check_fields (long_check (tickUpd s t) t.vt_symbol c a b d).1
          t.vt_symbol c a b d
        exact ⟨hs.1.trans hl.1, hs.2.trans hl.2⟩
  · rw [process_tick_eq_skip s t hmem]
    exact ⟨rfl, rfl⟩

theorem process_event_tick (s : EngineState) (t : TickData) :
    process_event s (InputEvent.tick t) = process_tick_event s t := rfl

theorem process_event_contract (s : EngineState) (c : ContractData) :
    process_event s (InputEvent.contract c) =
      ((process_contract_event s c).1, (process_contract_event s c).2, false) := rfl

theorem process_event_position (s : EngineState) (p : PositionData) :
    process_event s (InputEvent.position p) =
      ((process_position_event s p).1, (process_position_event s p).2, false) := rfl

/-- C10 (confirmed): every event handler preserves the invariant that each
instrument key in `subscribed` has a contract stored in `contracts`; keys
are never removed from `subscribed` and contract entries are never removed
from `contracts` (a later contract event may replace one). -/
theorem C10_subscribed_invariant (s : EngineState) (e : InputEvent)
    (h : subscribed_contract_inv s = true) :
    subscribed_contract_inv (process_event s e).1 = true
    ∧ (∀ x, x ∈ s.subscribed → x ∈ (process_event s e).1.subscribed)
    ∧ (∀ x c0, s.contracts x = some c0 → ∃ c1, (process_event s e).1.contracts x = some c1) := by
  cases e with
  | tick t =>
    rw [process_event_tick]
    have hf := process_tick_fields s t
    refine ⟨?_, ?_, ?_⟩
    · unfold subscribed_contract_inv at h ⊢
      rw [hf.1, hf.2]
      exact h
    · intro x hx
      rw [hf.1]
      exact hx
    · intro x c0 hx
      rw [hf.2]
      exact ⟨c0, hx⟩
  | contract c =>
    rw [process_event_contract, process_contract_eq]
    refine ⟨?_, fun x hx => hx, ?_⟩
    · unfold subscribed_contract_inv at h ⊢
      rw [List.all_eq_true] at h ⊢
      intro x hx
      show ((if x = c.vt_symbol then some c else s.contracts x)).isSome = true
      by_cases hxc : x = c.vt_symbol
      · rw [if_pos hxc]
        rfl
      · rw [if_neg hxc]
        exact h x hx
    · intro x c0 hx
      show ∃ c1, (if x = c.vt_symbol then some c else s.contracts x) = some c1
      by_cases hxc : x = c.vt_symbol
      · exact ⟨c, by rw [if_pos hxc]⟩
      · exact ⟨c0, by rw [if_neg hxc]; exact hx⟩
  | position p =>
    rw [process_event_position]
    rcases process_position_cases s p with ⟨_, heq⟩ | ⟨_, _, heq⟩ | ⟨c, hmem, hcon, heq⟩
    · rw [heq]
      exact ⟨h, fun x hx => hx, fun x c0 hx => ⟨c0, hx⟩⟩
    · rw [heq]
      exact ⟨h, fun x hx => hx, fun x c0 hx => ⟨c0, hx⟩⟩
    · rw [heq]
      refine ⟨?_, ?_, fun x c0 hx => ⟨c0, hx⟩⟩
      · unfold subscribed_contract_inv at h ⊢
        rw [List.all_eq_true] at h ⊢
        intro x hx
        have hx2 : x ∈ setAdd s.subscribed p.vt_symbol := hx
        rcases mem_setAdd.mp hx2 with rfl | hxs
        · show (s.contracts p.vt_symbol).isSome = true
          rw [hcon]
          rfl
        · exact h x hxs
      · intro x hx
        show x ∈ setAdd s.subscribed p.vt_symbol
        exact mem_setAdd.mpr (Or.inr hx)

/-! Concrete witnesses for the claim theorems that carry hypotheses. -/

/-- Witness for C3 at prices `[10, 11, 12]` from the Flat state. -/
theorem C3_flat_to_long_witness :
    (tkW 12 3).vt_symbol ∈ (stateWith [tkW 10 1, tkW 11 2] 0).trading_symbols
    ∧ ((stateWith [tkW 10 1, tkW 11 2] 0).tick_history (tkW 12 3).vt_symbol).reverse =
        [tkW 11 2, tkW 10 1]
    ∧ (stateWith [tkW 10 1, tkW 11 2] 0).contracts (tkW 12 3).vt_symbol = some cW
    ∧ (tkW 12 3).last_price > (tkW 11 2).last_price
    ∧ (tkW 11 2).last_price > (tkW 10 1).last_price
    ∧ (stateWith [tkW 10 1, tkW 11 2] 0).trading_targets (tkW 12 3).vt_symbol = 0
    ∧ ((process_tick_event (stateWith [tkW 10 1, tkW 11 2] 0) (tkW 12 3)).2.1 =
        [Output.sendOrder
          { symbol := cW.symbol, exchange := cW.exchange, direction := Direction.LONG,
            type := OrderType.LIMIT, price := (tkW 12 3).last_price + 10, volume := 1,
            offset := Offset.OPEN },
          Output.logEvent ((tkW 12 3).vt_symbol ++ "买入开仓1手 " ++
            toString (tkW 12 3).datetime),
          Output.strategyEvent (tkW 12 3).vt_symbol (tkW 12 3).datetime (tkW 12 3).last_price 1]
      ∧ (process_tick_event (stateWith [tkW 10 1, tkW 11 2] 0)
          (tkW 12 3)).1.trading_targets (tkW 12 3).vt_symbol = 1
      ∧ (process_tick_event (stateWith [tkW 10 1, tkW 11 2] 0) (tkW 12 3)).2.2 = false) :=
  ⟨by decide, by decide, by decide, by decide, by decide, by decide,
    C3_flat_to_long (stateWith [tkW 10 1, tkW 11 2] 0) (tkW 12 3) (tkW 11 2) (tkW 10 1) [] cW
      (by decide) (by decide) (by decide) (by decide) (by decide) (by decide)⟩

/-- Witness for C4 at the further prices `[12, 11, 10]` from the Long state. -/
theorem C4_long_to_flat_witness :
    (tkW 10 6).vt_symbol ∈ (stateWith [tkW 12 4, tkW 11 5] 1).trading_symbols
    ∧ ((stateWith [tkW 12 4, tkW 11 5] 1).tick_history (tkW 10 6).vt_symbol).reverse =
        [tkW 11 5, tkW 12 4]
    ∧ (stateWith [tkW 12 4, tkW 11 5] 1).contracts (tkW 10 6).vt_symbol = some cW
    ∧ (tkW 10 6).last_price < (tkW 11 5).last_price
    ∧ (tkW 11 5).last_price < (tkW 12 4).last_price
    ∧ (stateWith [tkW 12 4, tkW 11 5] 1).trading_targets (tkW 10 6).vt_symbol = 1
    ∧ ((process_tick_event (stateWith [tkW 12 4, tkW 11 5] 1) (tkW 10 6)).2.1 =
        [Output.sendOrder
          { symbol := cW.symbol, exchange := cW.exchange, direction := Direction.SHORT,
            type := OrderType.LIMIT, price := (tkW 10 6).last_price - 10, volume := 1,
            offset := Offset.CLOSE },
          Output.logEvent ((tkW 10 6).vt_symbol ++ "卖出平仓1手 " ++
            toString (tkW 10 6).datetime),
          Output.strategyEvent (tkW 10 6).vt_symbol (tkW 10 6).datetime (tkW 10 6).last_price 0]
      ∧ (process_tick_event (stateWith [tkW 12 4, tkW 11 5] 1)
          (tkW 10 6)).1.trading_targets (tkW 10 6).vt_symbol = 0
      ∧ (process_tick_event (stateWith [tkW 12 4, tkW 11 5] 1) (tkW 10 6)).2.2 = false) :=
  ⟨by decide, by decide, by decide, by decide, by decide, by decide,
    C4_long_to_flat (stateWith [tkW 12 4, tkW 11 5] 1) (tkW 10 6) (tkW 11 5) (tkW 12 4) [] cW
      (by decide) (by decide) (by decide) (by decide) (by decide) (by decide)⟩

/-- Witness for C5 at the plateau `[10, 10, 10]`. -/
theorem C5_no_transition_witness :
    (tkW 10 3).vt_symbol ∈ (stateWith [tkW 10 1, tkW 10 2] 0).trading_symbols
    ∧ no_transition
        ((stateWith [tkW 10 1, tkW 10 2] 0).tick_history (tkW 10 3).vt_symbol ++ [tkW 10 3])
        ((stateWith [tkW 10 1, tkW 10 2] 0).trading_targets (tkW 10 3).vt_symbol) = true
    ∧ (countOrders (process_tick_event (stateWith [tkW 10 1, tkW 10 2] 0) (tkW 10 3)).2.1 = 0
      ∧ ∀ k, (process_tick_event (stateWith [tkW 10 1, tkW 10 2] 0)
          (tkW 10 3)).1.trading_targets k =
        (stateWith [tkW 10 1, tkW 10 2] 0).trading_targets k) :=
  ⟨by decide, by decide,
    C5_no_transition (stateWith [tkW 10 1, tkW 10 2] 0) (tkW 10 3) (by decide) (by decide)⟩

/-- Witness for C6 (amended) with a position for `rb.SHFE` delivered before
its contract. -/
theorem C6_position_before_contract_witness :
    rbKey ∈ [rbKey]
    ∧ cW.vt_symbol = rbKey
    ∧ (∀ e ∈ [CPEvent.position pW], e.isContract = true → e.vt_symbol ≠ rbKey)
    ∧ (subsFor rbKey (run_cp (initState [rbKey]) [CPEvent.position pW]).2 = 0
      ∧ subsFor rbKey
          (run_cp (initState [rbKey]) ([CPEvent.position pW] ++ [CPEvent.contract cW])).2 = 1) :=
  ⟨by decide, by decide, by decide,
    C6_position_before_contract [rbKey] rbKey [CPEvent.position pW] cW
      (by decide) (by decide) (by decide)⟩

/-- Witness for C8: the status event emitted at the buy transition. -/
theorem C8_status_event_witness :
    (tkW 12 3).vt_symbol ∈ (stateWith [tkW 10 1, tkW 11 2] 0).trading_symbols
    ∧ 2 ≤ ((stateWith [tkW 10 1, tkW 11 2] 0).tick_history (tkW 12 3).vt_symbol).length
    ∧ (stateWith [tkW 10 1, tkW 11 2] 0).contracts (tkW 12 3).vt_symbol = some cW
    ∧ (((process_tick_event (stateWith [tkW 10 1, tkW 11 2] 0) (tkW 12 3)).2.1).filter
          isStrategyEvent =
        [Output.strategyEvent (tkW 12 3).vt_symbol (tkW 12 3).datetime (tkW 12 3).last_price
          ((process_tick_event (stateWith [tkW 10 1, tkW 11 2] 0)
            (tkW 12 3)).1.trading_targets (tkW 12 3).vt_symbol)]
      ∧ (process_tick_event (stateWith [tkW 10 1, tkW 11 2] 0) (tkW 12 3)).2.2 = false) :=
  ⟨by decide, by decide, by decide,
    C8_status_event (stateWith [tkW 10 1, tkW 11 2] 0) (tkW 12 3) cW
      (by decide) (by decide) (by decide)⟩

/-- Witness for C10 on a subscribed state receiving a repeated position. -/
theorem C10_subscribed_invariant_witness :
    subscribed_contract_inv subscribedState = true
    ∧ (subscribed_contract_inv (process_event subscribedState (InputEvent.position pW)).1 = true
      ∧ (∀ x, x ∈ subscribedState.subscribed →
          x ∈ (process_event subscribedState (InputEvent.position pW)).1.subscribed)
      ∧ (∀ x c0, subscribedState.contracts x = some c0 →
          ∃ c1, (process_event subscribedState (InputEvent.position pW)).1.contracts x
            = some c1)) :=
  ⟨by decide, C10_subscribed_invariant subscribedState (InputEvent.position pW) (by decide)⟩

end CodeDemo
